import Mathlib

/-!
Shallow embedding of `src/neural_network.py` (class `FFNN`) from the
back-to-training repository, together with models of the external
collaborators (`relu`, `sig`, `softmax` from the `activation_functions`
module, which is not part of the sources).

Tensors are modelled as shape-carrying structures with total entry
functions; every torch operation that can raise (`torch.mm` on mismatched
shapes, broadcasting `+`, negative indexing on an empty list, a Python
`assert`, calling a unary function with two arguments) is modelled as an
`Option`-valued function returning `none` on the error.  The scalar type is
a generic linearly ordered field (floats are modelled by exact arithmetic);
the exponential used by `sig`/`softmax` is passed as an explicit function
parameter so that everything stays executable.
-/

namespace BackToTraining

/-- A 2-D tensor: row count, column count, and a total entry function
(entries outside the shape are irrelevant junk, as in a function model). -/
structure Matrix (α : Type) where
  rows : Nat
  cols : Nat
  entry : Nat → Nat → α

/-- A 1-D tensor (used for biases). -/
structure Vec (α : Type) where
  len : Nat
  entry : Nat → α

/-- The shape `(rows, cols)` of a matrix, as reported by `Tensor.size()`. -/
def Matrix.shape {α : Type} (m : Matrix α) : Nat × Nat := (m.rows, m.cols)

variable {α : Type} [LinearOrderedField α]

/-- Elementwise map over a matrix (model of an elementwise tensor op). -/
def Matrix.map (f : α → α) (m : Matrix α) : Matrix α :=
  ⟨m.rows, m.cols, fun i j => f (m.entry i j)⟩

/-- `torch.mm(a, b)`: matrix product; raises (`none`) unless
`a.cols = b.rows`. -/
def mm (a b : Matrix α) : Option (Matrix α) :=
  if a.cols = b.rows then
    some ⟨a.rows, b.cols, fun i j => ∑ k in Finset.range a.cols, a.entry i k * b.entry k j⟩
  else none

/-- Broadcast addition of a 1-D tensor `v` to a 2-D tensor `a`, following
torch/numpy broadcasting for shapes `(B, n) + (m,)`: the trailing
dimensions must match or one of them must be `1`; otherwise it raises. -/
def addBroadcast (a : Matrix α) (v : Vec α) : Option (Matrix α) :=
  if a.cols = v.len then
    some ⟨a.rows, a.cols, fun i j => a.entry i j + v.entry j⟩
  else if v.len = 1 then
    some ⟨a.rows, a.cols, fun i j => a.entry i j + v.entry 0⟩
  else if a.cols = 1 then
    some ⟨a.rows, v.len, fun i j => a.entry i 0 + v.entry j⟩
  else none

/-- Modelled from the spec: `relu` from the `activation_functions` module
(module not under the sources); elementwise rectifier. -/
def relu (x : α) : α := max x 0

/-- Modelled from the spec: `sig` (sigmoid) from the `activation_functions`
module (module not under the sources); elementwise logistic function, with
the exponential passed explicitly. -/
def sig (exp : α → α) (x : α) : α := 1 / (1 + exp (-x))

/-- Modelled from the spec: `softmax(x, dim=1)` from the
`activation_functions` module (module not under the sources); row-wise
normalization `exp(x_ij) / Σ_k exp(x_ik)` turning every row into a
probability distribution, with the exponential passed explicitly. -/
def softmax (exp : α → α) (m : Matrix α) : Matrix α :=
  ⟨m.rows, m.cols, fun i j => exp (m.entry i j) / ∑ k in Finset.range m.cols, exp (m.entry i k)⟩

/-- The Python type
`ActivationFunction = Union[Callable[[Tensor, float], Tensor], Callable[[Tensor], Tensor]]`:
an activation is either unary or binary (with a scalar second argument);
per the spec's glossary it is an elementwise transform, so we carry the
scalar functions and apply them entrywise. -/
inductive ActivationFunction (α : Type) where
  | unary : (α → α) → ActivationFunction α
  | binary : (α → α → α) → ActivationFunction α

/-- The call site
`activation(t) if params is None else activation(t, params.item())`:
calling a unary function with two arguments, or a binary one with a single
argument, is a Python `TypeError` (`none`). -/
def applyActivation : ActivationFunction α → Option α → Matrix α → Option (Matrix α)
  | .unary f, none, m => some (m.map f)
  | .binary f, some p, m => some (m.map (fun x => f x p))
  | .unary _, some _, _ => none
  | .binary _, none, _ => none

/-- The state of an `FFNN` instance: the private fields
`__weights`, `__biases`, `__activation_functions`, `__function_parameters`. -/
structure FFNN (α : Type) where
  weights : List (Matrix α)
  biases : List (Vec α)
  activationFunctions : List (ActivationFunction α)
  functionParameters : List (Option α)

/-- The local list `neurons` built in `FFNN.__init__`:
`neurons = [size_in]; neurons.extend(hidden_sizes); neurons.append(size_out)`. -/
def neurons (sizeIn : Nat) (hiddenSizes : List Nat) (sizeOut : Nat) : List Nat :=
  sizeIn :: (hiddenSizes ++ [sizeOut])

/-- `FFNN.__init__`.  `rand i` supplies the entries of the `i`-th call to
`torch.rand` (randomness as an oracle).  The Python `assert size_out >= 2`
is the only validation; its failure is modelled by `none`.  Weights are
`torch.rand(neurons[i], neurons[i+1])` for `i in range(0, len(neurons)-1)`;
biases are `torch.zeros(layer_size)` for each hidden layer size. -/
def FFNN.init (rand : Nat → Nat → Nat → α) (sizeIn : Nat) (hiddenSizes : List Nat)
    (activationFunctions : List (ActivationFunction α))
    (functionParameters : List (Option α)) (sizeOut : Nat) : Option (FFNN α) :=
  if 2 ≤ sizeOut then
    some
      { weights :=
          (List.range ((neurons sizeIn hiddenSizes sizeOut).length - 1)).map (fun i =>
            ⟨(neurons sizeIn hiddenSizes sizeOut).getD i 0,
             (neurons sizeIn hiddenSizes sizeOut).getD (i + 1) 0, rand i⟩)
        biases := hiddenSizes.map (fun layerSize => ⟨layerSize, fun _ => 0⟩)
        activationFunctions := activationFunctions
        functionParameters := functionParameters }
  else none

/-- The iteration sequence of the forward loop:
`zip(self.__weights[:-1], self.__biases[:-1], self.__activation_functions,
self.__function_parameters)` (Python `zip` truncates to the shortest input,
as does `List.zip`). -/
def loopSteps (net : FFNN α) :
    List (Matrix α × Vec α × ActivationFunction α × Option α) :=
  net.weights.dropLast.zip
    (net.biases.dropLast.zip (net.activationFunctions.zip net.functionParameters))

/-- One iteration of the forward loop:
`out = activation(torch.mm(out, weights) + biases)` resp.
`activation(torch.mm(out, weights) + biases, params.item())`. -/
def stepCompute (out : Matrix α)
    (s : Matrix α × Vec α × ActivationFunction α × Option α) : Option (Matrix α) :=
  (mm out s.1).bind fun z =>
    (addBroadcast z s.2.1).bind fun z2 =>
      applyActivation s.2.2.1 s.2.2.2 z2

/-- Runs the forward loop over its iteration sequence, threading `out`. -/
def runLoop : List (Matrix α × Vec α × ActivationFunction α × Option α) →
    Matrix α → Option (Matrix α)
  | [], out => some out
  | s :: rest, out => (stepCompute out s).bind fun out2 => runLoop rest out2

/-- `FFNN.forward`.  After the loop, the final line evaluates (in Python
order) `self.__weights[-1]`, `torch.mm(out, ...)`, `self.__biases[-1]`, the
broadcast `+`, and `softmax(..., dim=1)`; negative indexing on an empty
list is an `IndexError` (`none`). -/
def FFNN.forward (exp : α → α) (net : FFNN α) (nnInput : Matrix α) : Option (Matrix α) :=
  (runLoop (loopSteps net) nnInput).bind fun out =>
    net.weights.getLast?.bind fun wl =>
      (mm out wl).bind fun z =>
        net.biases.getLast?.bind fun bl =>
          (addBroadcast z bl).bind fun z2 =>
            some (softmax exp z2)

/-- The `weights` property setter: wholesale replacement, no validation. -/
def FFNN.setWeights (net : FFNN α) (nnWeights : List (Matrix α)) : FFNN α :=
  { net with weights := nnWeights }

/-- The `biases` property setter: wholesale replacement, no validation. -/
def FFNN.setBiases (net : FFNN α) (nnBiases : List (Vec α)) : FFNN α :=
  { net with biases := nnBiases }

/-- The spec's container invariant: `len(weights) == len(biases) + 1`. -/
def invariant (net : FFNN α) : Prop :=
  net.weights.length = net.biases.length + 1

/-! ### Concrete instances used to evaluate the model

Scalars are instantiated at `ℚ` (exact arithmetic) and the external
exponential at `id`; none of the facts below depend on the numeric values,
only on shapes and control flow. -/

/-- A concrete randomness oracle (all entries `0`). -/
def randZero : Nat → Nat → Nat → ℚ := fun _ _ _ => 0

/-- The spec's example network:
`FFNN(300, [50, 30], [relu, sig], [None, None], 10)`. -/
def specExampleNet : Option (FFNN ℚ) :=
  FFNN.init randZero 300 [50, 30] [.unary relu, .unary (sig id)] [none, none] 10

/-- The spec's example batch: `random_batch(1, 300)`, shape `(1, 300)`. -/
def inputBatch : Matrix ℚ := ⟨1, 300, fun _ _ => 0⟩

/-- Default used only to extract from an `Option (FFNN ℚ)`. -/
def emptyFFNN : FFNN ℚ := ⟨[], [], [], []⟩

/-- `FFNN(2, [2], [relu], [None], 2)`, a network on which `forward`
happens to succeed (all the accidental dimension coincidences hold). -/
def smallNet : FFNN ℚ :=
  (FFNN.init randZero 2 [2] [.unary relu] [none] 2).getD emptyFFNN

/-- A shape-`(1, 2)` batch for `smallNet`. -/
def smallBatch : Matrix ℚ := ⟨1, 2, fun _ _ => 0⟩

/-- A replacement weight list whose shapes `[(3,3), (2,2)]` do not match
`smallNet`'s constructed shapes `[(2,2), (2,2)]`. -/
def mismatchedWeights : List (Matrix ℚ) :=
  [⟨3, 3, fun _ _ => 1⟩, ⟨2, 2, fun _ _ => 1⟩]

/-- A replacement weight list with the same shapes as `smallNet`'s but
different entries. -/
def sameShapeWeights : List (Matrix ℚ) :=
  [⟨2, 2, fun _ _ => 5⟩, ⟨2, 2, fun _ _ => 7⟩]

/-- `FFNN(2, [3, 4], [relu, mul], [None, 2], 5)`: a two-hidden-layer
network (the second activation is binary with scalar parameter `2`). -/
def twoHiddenNet : FFNN ℚ :=
  (FFNN.init randZero 2 [3, 4] [.unary relu, .binary (fun x p => x * p)]
    [none, some 2] 5).getD emptyFFNN

/-- `FFNN(2, [], [], [], 2)`: no hidden layers. -/
def noHiddenNet : FFNN ℚ :=
  (FFNN.init randZero 2 [] [] [] 2).getD emptyFFNN

/-! ### Helper lemmas -/

/-- Unfolding characterization of a successful construction. -/
theorem FFNN.init_eq_some_iff {rand : Nat → Nat → Nat → α} {sizeIn : Nat}
    {hiddenSizes : List Nat} {acts : List (ActivationFunction α)}
    {ps : List (Option α)} {sizeOut : Nat} {net : FFNN α} :
    FFNN.init rand sizeIn hiddenSizes acts ps sizeOut = some net ↔
      2 ≤ sizeOut ∧
        net =
          { weights :=
              (List.range ((neurons sizeIn hiddenSizes sizeOut).length - 1)).map (fun i =>
                ⟨(neurons sizeIn hiddenSizes sizeOut).getD i 0,
                 (neurons sizeIn hiddenSizes sizeOut).getD (i + 1) 0, rand i⟩)
            biases := hiddenSizes.map (fun layerSize => ⟨layerSize, fun _ => 0⟩)
            activationFunctions := acts
            functionParameters := ps } := by
  unfold FFNN.init
  by_cases h : 2 ≤ sizeOut <;> simp [h, eq_comm]

/-- Indexing consecutive pairs of a list equals zipping it with its tail. -/
theorem range_getD_pairs_eq_zip_tail (l : List Nat) :
    (List.range (l.length - 1)).map (fun i => (l.getD i 0, l.getD (i + 1) 0)) =
      l.zip l.tail := by
  induction l with
  | nil => rfl
  | cons a t ih =>
    cases t with
    | nil => rfl
    | cons b t2 =>
      have h : (a :: b :: t2).length - 1 = ((b :: t2).length - 1) + 1 := by simp
      rw [h, List.range_succ_eq_map, List.map_cons, List.map_map]
      have h2 :
          ((fun i => ((a :: b :: t2).getD i 0, (a :: b :: t2).getD (i + 1) 0)) ∘ Nat.succ) =
            fun i => ((b :: t2).getD i 0, (b :: t2).getD (i + 1) 0) := by
        funext i
        simp [List.getD_cons_succ]
      rw [h2, ih]
      rfl

/-- Binding a constant failure is a failure. -/
theorem bind_const_none {β γ : Type} (o : Option β) :
    (o.bind fun _ => (none : Option γ)) = none := by
  cases o <;> rfl

/-! ### Claims -/

/-- Claim C4: construction with `output_size < 2` fails the `assert`
validation, and construction with `output_size >= 2` does not. -/
theorem init_succeeds_iff_sizeOut_ge_two (rand : Nat → Nat → Nat → α) (sizeIn : Nat)
    (hiddenSizes : List Nat) (acts : List (ActivationFunction α)) (ps : List (Option α))
    (sizeOut : Nat) :
    (FFNN.init rand sizeIn hiddenSizes acts ps sizeOut).isSome ↔ 2 ≤ sizeOut := by
  unfold FFNN.init
  by_cases h : 2 ≤ sizeOut <;> simp [h]

/-- Claim C5: a validly constructed network holds `len(hidden_sizes) + 1`
weight matrices, whose shapes are the consecutive pairs of
`[input_size] + hidden_sizes + [output_size]`. -/
theorem init_weights_count_and_shapes (rand : Nat → Nat → Nat → α) (sizeIn : Nat)
    (hiddenSizes : List Nat) (acts : List (ActivationFunction α)) (ps : List (Option α))
    (sizeOut : Nat) (net : FFNN α)
    (h : FFNN.init rand sizeIn hiddenSizes acts ps sizeOut = some net) :
    net.weights.length = hiddenSizes.length + 1 ∧
      net.weights.map Matrix.shape =
        (neurons sizeIn hiddenSizes sizeOut).zip (hiddenSizes ++ [sizeOut]) := by
  obtain ⟨-, rfl⟩ := FFNN.init_eq_some_iff.mp h
  refine ⟨by simp [neurons], ?_⟩
  have h1 := range_getD_pairs_eq_zip_tail (neurons sizeIn hiddenSizes sizeOut)
  simp only [List.map_map]
  exact h1

/-- Claim C5 witness at `FFNN(2, [2], [relu], [None], 2)`. -/
theorem init_weights_count_and_shapes_witness :
    smallNet.weights.length = [2].length + 1 ∧
      smallNet.weights.map Matrix.shape = (neurons 2 [2] 2).zip ([2] ++ [2]) :=
  init_weights_count_and_shapes randZero 2 [2] [.unary relu] [none] 2 smallNet rfl

/-- Claim C6: a validly constructed network holds exactly one bias vector
per hidden layer (none for the output layer), each equal to the all-zero
vector of length `hidden_sizes[i]`. -/
theorem init_biases_zero_per_hidden_layer (rand : Nat → Nat → Nat → α) (sizeIn : Nat)
    (hiddenSizes : List Nat) (acts : List (ActivationFunction α)) (ps : List (Option α))
    (sizeOut : Nat) (net : FFNN α)
    (h : FFNN.init rand sizeIn hiddenSizes acts ps sizeOut = some net) :
    net.biases.length = hiddenSizes.length ∧
      net.biases = hiddenSizes.map (fun layerSize => (⟨layerSize, fun _ => 0⟩ : Vec α)) := by
  obtain ⟨-, rfl⟩ := FFNN.init_eq_some_iff.mp h
  exact ⟨by simp, rfl⟩

/-- Claim C6 witness at `FFNN(2, [2], [relu], [None], 2)`. -/
theorem init_biases_zero_per_hidden_layer_witness :
    smallNet.biases.length = [2].length ∧
      smallNet.biases = [2].map (fun layerSize => (⟨layerSize, fun _ => 0⟩ : Vec ℚ)) :=
  init_biases_zero_per_hidden_layer randZero 2 [2] [.unary relu] [none] 2 smallNet rfl

/-- Claim C7 (counterexample): a validly constructed network on which the
wholesale weights setter breaks the invariant `len(weights) = len(biases) + 1`
(the setter performs no validation), refuting preservation by every
container operation. -/
theorem setter_breaks_invariant_counterexample :
    FFNN.init randZero 2 [2] [.unary relu] [none] 2 = some smallNet ∧
      invariant smallNet ∧ ¬ invariant (smallNet.setWeights []) :=
  ⟨rfl, rfl, by unfold invariant; decide⟩

/-- Claim C7 (amended): the invariant `len(weights) = len(biases) + 1`
holds at construction, and the unvalidated wholesale setters preserve it
exactly when the replacement list has the matching length. -/
theorem invariant_at_init_and_matching_setters (rand : Nat → Nat → Nat → α) (sizeIn : Nat)
    (hiddenSizes : List Nat) (acts : List (ActivationFunction α)) (ps : List (Option α))
    (sizeOut : Nat) (net : FFNN α) (ws : List (Matrix α)) (bs : List (Vec α))
    (h : FFNN.init rand sizeIn hiddenSizes acts ps sizeOut = some net)
    (hws : ws.length = net.biases.length + 1)
    (hbs : bs.length + 1 = net.weights.length) :
    invariant net ∧ invariant (net.setWeights ws) ∧ invariant (net.setBiases bs) := by
  obtain ⟨-, rfl⟩ := FFNN.init_eq_some_iff.mp h
  refine ⟨?_, ?_, ?_⟩
  · unfold invariant
    simp [neurons]
  · unfold invariant FFNN.setWeights
    simpa using hws
  · unfold invariant FFNN.setBiases
    simpa using hbs.symm

/-- Claim C7 (amended) witness at `FFNN(2, [2], [relu], [None], 2)`. -/
theorem invariant_at_init_and_matching_setters_witness :
    invariant smallNet ∧ invariant (smallNet.setWeights sameShapeWeights) ∧
      invariant (smallNet.setBiases [⟨2, fun _ => 0⟩]) :=
  invariant_at_init_and_matching_setters randZero 2 [2] [.unary relu] [none] 2 smallNet
    sameShapeWeights [⟨2, fun _ => 0⟩] rfl (by decide) (by decide)

/-- Claim C8: the forward loop iterates over
`zip(weights[:-1], biases[:-1], activation_functions, function_parameters)`,
so the biases it consumes are exactly `biases[:-1]` — the last hidden
layer's bias never appears in the main iteration. -/
theorem forward_loop_drops_last_bias (rand : Nat → Nat → Nat → α) (sizeIn : Nat)
    (hiddenSizes : List Nat) (acts : List (ActivationFunction α)) (ps : List (Option α))
    (sizeOut : Nat) (net : FFNN α)
    (hacts : acts.length = hiddenSizes.length) (hps : ps.length = hiddenSizes.length)
    (h : FFNN.init rand sizeIn hiddenSizes acts ps sizeOut = some net) :
    (loopSteps net).map (fun s => s.2.1) = net.biases.dropLast := by
  obtain ⟨-, rfl⟩ := FFNN.init_eq_some_iff.mp h
  unfold loopSteps
  simp only []
  rw [show (fun s : Matrix α × Vec α × ActivationFunction α × Option α => s.2.1) =
        Prod.fst ∘ Prod.snd from rfl, ← List.map_map]
  have hAP : (acts.zip ps).length = hiddenSizes.length := by
    simp [List.length_zip, hacts, hps]
  have h1 :
      (((hiddenSizes.map (fun layerSize => (⟨layerSize, fun _ => 0⟩ : Vec α))).dropLast.zip
          (acts.zip ps))).length ≤
        ((List.range ((neurons sizeIn hiddenSizes sizeOut).length - 1)).map (fun i =>
            (⟨(neurons sizeIn hiddenSizes sizeOut).getD i 0,
              (neurons sizeIn hiddenSizes sizeOut).getD (i + 1) 0, rand i⟩ :
              Matrix α))).dropLast.length := by
    simp [List.length_zip, List.length_dropLast, hAP, neurons]
  have h2 :
      ((hiddenSizes.map (fun layerSize => (⟨layerSize, fun _ => 0⟩ : Vec α))).dropLast).length ≤
        (acts.zip ps).length := by
    simp [List.length_dropLast, hAP]
  rw [List.map_snd_zip _ _ h1, List.map_fst_zip _ _ h2]

/-- Claim C8 witness at `FFNN(2, [3, 4], [relu, mul], [None, 2], 5)`. -/
theorem forward_loop_drops_last_bias_witness :
    (loopSteps twoHiddenNet).map (fun s => s.2.1) = twoHiddenNet.biases.dropLast :=
  forward_loop_drops_last_bias randZero 2 [3, 4]
    [.unary relu, .binary (fun x p => x * p)] [none, some 2] 5 twoHiddenNet rfl rfl rfl

/-- Claim C10: with an empty hidden-layer list the biases list is empty and
every call to `forward` fails (the final line indexes `biases[-1]`, an
`IndexError` on the empty list), instead of returning
`softmax(input @ weight)`. -/
theorem forward_fails_on_no_hidden_layers (exp : α → α) (rand : Nat → Nat → Nat → α)
    (sizeIn sizeOut : Nat) (net : FFNN α) (x : Matrix α)
    (h : FFNN.init rand sizeIn [] [] [] sizeOut = some net) :
    net.biases = [] ∧ net.forward exp x = none := by
  obtain ⟨-, rfl⟩ := FFNN.init_eq_some_iff.mp h
  refine ⟨rfl, ?_⟩
  unfold FFNN.forward loopSteps
  simp [neurons, runLoop, bind_const_none]

/-- Claim C10 witness at `FFNN(2, [], [], [], 2)` on a `(1, 2)` batch. -/
theorem forward_fails_on_no_hidden_layers_witness :
    noHiddenNet.biases = [] ∧ noHiddenNet.forward id smallBatch = none :=
  forward_fails_on_no_hidden_layers id randZero 2 2 noHiddenNet smallBatch rfl

/-- Claim C1 (code bug): on the spec's own example
`FFNN(300, [50, 30], [relu, sig], [None, None], 10)` with a `(1, 300)`
batch, the forward loop runs only one of the two hidden transitions (the
`zip` truncates at `biases[:-1]`) and the pass then fails on a matrix
shape mismatch instead of computing the reference MLP pass. -/
theorem forward_loop_truncation_spec_example :
    specExampleNet.map (fun net => ((loopSteps net).length, net.forward id inputBatch)) =
      some (1, none) := rfl

/-- Claim C2 (code bug): on the spec's own example, a `(1, 300)` batch does
not produce a `(1, 10)` output — `forward` raises (no output shape at
all). -/
theorem forward_shape_contract_violated_spec_example :
    inputBatch.shape = (1, 300) ∧
      specExampleNet.map (fun net => (net.forward id inputBatch).map Matrix.shape) =
        some none :=
  ⟨rfl, rfl⟩

/-- Claim C3 (code bug): on the spec's own example, `forward` produces no
output tensor at all, so no probability-distribution rows exist. -/
theorem forward_no_output_rows_spec_example :
    specExampleNet.map (fun net => net.forward id inputBatch) = some none := rfl

/-! ### Shape congruence: the forward pass's success and output shape are
determined by the shapes of the tensors involved, not their entries. -/

/-- `mm` succeeds and produces the same shape when the operand shapes agree. -/
theorem mm_shape_congr {a a' b b' : Matrix α} (ha : a.shape = a'.shape)
    (hb : b.shape = b'.shape) :
    (mm a b).map Matrix.shape = (mm a' b').map Matrix.shape := by
  have h1 : a.rows = a'.rows := congrArg Prod.fst ha
  have h2 : a.cols = a'.cols := congrArg Prod.snd ha
  have h3 : b.rows = b'.rows := congrArg Prod.fst hb
  have h4 : b.cols = b'.cols := congrArg Prod.snd hb
  unfold mm
  rw [h1, h2, h3, h4]
  split <;> rfl

/-- Broadcast addition succeeds and produces the same shape when the matrix
shapes agree (same bias vector on both sides). -/
theorem addBroadcast_shape_congr {a a' : Matrix α} (v : Vec α) (ha : a.shape = a'.shape) :
    (addBroadcast a v).map Matrix.shape = (addBroadcast a' v).map Matrix.shape := by
  have h1 : a.rows = a'.rows := congrArg Prod.fst ha
  have h2 : a.cols = a'.cols := congrArg Prod.snd ha
  unfold addBroadcast
  rw [h1, h2]
  split
  · rfl
  · split
    · rfl
    · split
      · rfl
      · rfl

omit [LinearOrderedField α] in
/-- Activation application succeeds and produces the same shape when the
matrix shapes agree (elementwise maps preserve shape). -/
theorem applyActivation_shape_congr (act : ActivationFunction α) (p : Option α)
    {m m' : Matrix α} (hm : m.shape = m'.shape) :
    (applyActivation act p m).map Matrix.shape =
      (applyActivation act p m').map Matrix.shape := by
  cases act with
  | unary f =>
    cases p with
    | none => simpa [applyActivation, Matrix.map, Matrix.shape] using hm
    | some q => rfl
  | binary f =>
    cases p with
    | none => rfl
    | some q => simpa [applyActivation, Matrix.map, Matrix.shape] using hm

omit [LinearOrderedField α] in
/-- Congruence for `Option.bind` along shape equality of results. -/
theorem bind_shape_congr {o o' : Option (Matrix α)} {f g : Matrix α → Option (Matrix α)}
    (h : o.map Matrix.shape = o'.map Matrix.shape)
    (hfg : ∀ m m', m.shape = m'.shape →
      (f m).map Matrix.shape = (g m').map Matrix.shape) :
    (o.bind f).map Matrix.shape = (o'.bind g).map Matrix.shape := by
  cases o with
  | none =>
    cases o' with
    | none => rfl
    | some m' => simp at h
  | some m =>
    cases o' with
    | none => simp at h
    | some m' => exact hfg m m' (by simpa using h)

omit [LinearOrderedField α] in
/-- Congruence for `Option.bind` over a shared option. -/
theorem bind_same_shape_congr {β : Type} (o : Option β)
    {f g : β → Option (Matrix α)}
    (h : ∀ v, (f v).map Matrix.shape = (g v).map Matrix.shape) :
    (o.bind f).map Matrix.shape = (o.bind g).map Matrix.shape := by
  cases o with
  | none => rfl
  | some v => exact h v

/-- One loop iteration: shape behavior depends only on the shapes of the
running output and of the step's weight matrix. -/
theorem stepCompute_shape_congr {out out' w w' : Matrix α}
    (r : Vec α × ActivationFunction α × Option α)
    (hout : out.shape = out'.shape) (hw : w.shape = w'.shape) :
    (stepCompute out (w, r)).map Matrix.shape =
      (stepCompute out' (w', r)).map Matrix.shape := by
  obtain ⟨b, act, p⟩ := r
  unfold stepCompute
  refine bind_shape_congr (mm_shape_congr hout hw) ?_
  intro z z' hz
  refine bind_shape_congr (addBroadcast_shape_congr b hz) ?_
  intro z2 z2' hz2
  exact applyActivation_shape_congr act p hz2

/-- The whole loop: shape behavior depends only on the weight shapes (the
bias/activation/parameter components `R` being shared). -/
theorem runLoop_zip_shape_congr :
    ∀ (A A' : List (Matrix α)) (R : List (Vec α × ActivationFunction α × Option α))
      (out out' : Matrix α), A.map Matrix.shape = A'.map Matrix.shape →
      out.shape = out'.shape →
      (runLoop (A.zip R) out).map Matrix.shape =
        (runLoop (A'.zip R) out').map Matrix.shape := by
  intro A
  induction A with
  | nil =>
    intro A' R out out' hA hout
    have hA' : A' = [] := by
      cases A' with
      | nil => rfl
      | cons w' t' => simp at hA
    subst hA'
    simpa [runLoop] using congrArg some hout
  | cons w t ih =>
    intro A' R out out' hA hout
    cases A' with
    | nil => simp at hA
    | cons w' t' =>
      have hw : w.shape = w'.shape := by
        simpa using congrArg (fun l => l.headI) hA
      have ht : t.map Matrix.shape = t'.map Matrix.shape := by
        simpa using congrArg List.tail hA
      cases R with
      | nil =>
        simpa [runLoop] using congrArg some hout
      | cons r rt =>
        simp only [List.zip_cons_cons, runLoop]
        refine bind_shape_congr (stepCompute_shape_congr r hout hw) ?_
        intro m m' hm
        exact ih t' rt m m' ht hm

/-- Shape of `softmax` equals the shape of its input. -/
theorem softmax_shape (exp : α → α) (m : Matrix α) : (softmax exp m).shape = m.shape := rfl

/-- Claim C9 (amended): replacing the weight list with matrices of the same
shapes leaves the forward pass's success and output shape unchanged (the
setter itself never fails; whether a mismatched replacement breaks the
subsequent forward pass depends on the shapes). -/
theorem forward_shape_determined_by_weight_shapes (exp : α → α) (net : FFNN α)
    (ws : List (Matrix α)) (x : Matrix α)
    (h : ws.map Matrix.shape = net.weights.map Matrix.shape) :
    ((net.setWeights ws).forward exp x).map Matrix.shape =
      (net.forward exp x).map Matrix.shape := by
  unfold FFNN.forward FFNN.setWeights loopSteps
  simp only []
  refine bind_shape_congr ?_ ?_
  · refine runLoop_zip_shape_congr _ _ _ x x ?_ rfl
    rw [List.map_dropLast, List.map_dropLast, h]
  · intro m m' hm
    refine bind_shape_congr ?_ ?_
    · rw [← List.getLast?_map, ← List.getLast?_map, h]
    · intro wl wl' hwl
      refine bind_shape_congr (mm_shape_congr hm hwl) ?_
      intro z z' hz
      refine bind_same_shape_congr _ ?_
      intro bl
      refine bind_shape_congr (addBroadcast_shape_congr bl hz) ?_
      intro z2 z2' hz2
      simpa [softmax_shape] using hz2

/-- Claim C9 (amended) witness: a same-shape replacement on
`FFNN(2, [2], [relu], [None], 2)`. -/
theorem forward_shape_determined_by_weight_shapes_witness :
    sameShapeWeights.map Matrix.shape = smallNet.weights.map Matrix.shape ∧
      ((smallNet.setWeights sameShapeWeights).forward id smallBatch).map Matrix.shape =
        (smallNet.forward id smallBatch).map Matrix.shape :=
  ⟨by decide,
    forward_shape_determined_by_weight_shapes id smallNet sameShapeWeights smallBatch
      (by decide)⟩

/-- Claim C9 (counterexample): the wholesale setter accepts a weight list
whose shapes do not match the construction, and the subsequent forward pass
still succeeds with a `(1, 2)` output — a mismatched replacement does not
necessarily fail. -/
theorem mismatched_weights_forward_still_succeeds :
    FFNN.init randZero 2 [2] [.unary relu] [none] 2 = some smallNet ∧
      smallBatch.shape = (1, 2) ∧
      mismatchedWeights.map Matrix.shape ≠ smallNet.weights.map Matrix.shape ∧
      ((smallNet.setWeights mismatchedWeights).forward id smallBatch).map Matrix.shape =
        some (1, 2) :=
  ⟨rfl, rfl, by decide, rfl⟩

end BackToTraining
